import Mathlib

/-!
Verification of the workflow execution engine (Go sources under
`api/services/workflow` and `api/services/nodes`) against its
natural-language specification.

Shallow embedding conventions:
* Go `float64` values are modelled as rationals (`ℚ`); binary floating
  point representation issues (NaN, rounding of decimal literals) are
  outside the scope of the verified claims.
* Wall-clock timing (`DurationMs`, the 10 s / 60 s deadlines) is not
  modelled; context cancellation is modelled as an abstract schedule
  `Nat → Option String` giving the cancellation cause (if any) observed
  by `ctx.Err()` at the start of walk iteration `i`.  Every realizable
  Go behaviour corresponds to some schedule.
* Go maps are modelled as association lists (entry order standing in for
  the arbitrary iteration order) or as lookup functions; claims proved
  below do not depend on the chosen order, as noted at each use.
* `fmt.Sprintf("%q", s)` is modelled as surrounding `s` with double
  quotes; the node/workflow ids appearing in the verified claims contain
  no characters that Go would escape.
-/

set_option maxHeartbeats 1000000

namespace WorkflowEngine

/-- Runtime values stored in the node context variable bag
(`map[string]any` in Go).  The constructors cover the dynamic types the
engine inspects: `float64`/`float32`, `int`, `json.Number` (represented
by its parsed numeric value), `string`, `bool`, `nil`, and a catch-all
for every other dynamic type. -/
inductive GoVal where
  | float : ℚ → GoVal
  | int : ℤ → GoVal
  | jsonNumber : ℚ → GoVal
  | str : String → GoVal
  | boolean : Bool → GoVal
  | null : GoVal
  | other : GoVal
deriving DecidableEq, Repr, Inhabited

/-- Variable bag threaded through a walk (`NodeContext.Variables`).
`none` models a key absent from the Go map. -/
def VarMap : Type := String → Option GoVal

/-- Outgoing edge entry of the adjacency list (`edgeTarget` in
`workflow_test.go`): target instance id plus the optional source handle
used for condition branches. -/
structure EdgeTarget where
  targetID : String
  sourceHandle : Option String
deriving DecidableEq, Repr, Inhabited

/-- Persisted edge (`storage.Edge`), restricted to the fields the engine
reads: `Source`, `Target` and `SourceHandle` (display attributes such as
`Type`, `Animated`, `Label` are never consulted by the walker). -/
structure Edge where
  id : String
  source : String
  target : String
  sourceHandle : Option String
deriving DecidableEq, Repr, Inhabited

/-- Hydrated node (`storage.Node`), restricted to the fields the walker
and `validateGraph` read: instance id, type tag, label and description
(canvas position and raw metadata are irrelevant to the walk; metadata
passthrough is modelled separately below). -/
structure StorageNode where
  id : String
  type : String
  label : String
  description : String
deriving DecidableEq, Repr, Inhabited

/-- Result of a single node execution (`nodes.ExecutionResult`): a
status string, an output map (association list with the unique keys of
the Go map), and the branch tag consumed by the router. -/
structure ExecutionResult where
  status : String
  output : List (String × GoVal)
  branch : String
deriving DecidableEq, Repr, Inhabited

/-- Step record appended to the response for each executed node
(`StepResult` in `workflow_test.go`).  `DurationMs` (wall-clock) is not
modelled. -/
structure StepResult where
  nodeID : String
  type : String
  label : String
  description : String
  status : String
  output : List (String × GoVal)
  error : String
deriving DecidableEq, Repr, Inhabited

/-- Response of the execute endpoint (`ExecutionResponse`).
`executedAt` is stamped by the HTTP layer, not by the walker, and is
omitted.  `failedNode` and `error` default to the empty string exactly
as the Go zero values do. -/
structure ExecutionResponse where
  status : String
  steps : List StepResult
  failedNode : String := ""
  error : String := ""
deriving DecidableEq, Repr, Inhabited

/-- Safeguard bound against malformed workflows (`maxExecutionSteps`). -/
def maxExecutionSteps : Nat := 100

/-- Rendering of `fmt.Sprintf` `%q` for the plain identifiers used here
(escaping of exotic characters elided). -/
def goQuote (s : String) : String := "\"" ++ s ++ "\""

/-! ## nextNode (`workflow_test.go`, routing)

Direct translation of the two scan loops of `nextNode`. -/

/-- First loop of `nextNode`: scan for an edge whose `sourceHandle`
is non-nil and equals `branch`, returning its target. -/
def findBranchTarget (branch : String) : List EdgeTarget → Option String
  | [] => none
  | e :: rest =>
    if e.sourceHandle = some branch then some e.targetID
    else findBranchTarget branch rest

/-- Second loop of `nextNode`: scan for an edge whose `sourceHandle`
is nil, returning its target. -/
def findUnsetTarget : List EdgeTarget → Option String
  | [] => none
  | e :: rest =>
    if e.sourceHandle = none then some e.targetID
    else findUnsetTarget rest

/-- Translation of `nextNode`: empty edge list ends the walk; a
non-empty branch is matched against source handles (no fallback); an
empty branch picks the first handle-less edge, falling back to the
first edge. -/
def nextNode (edges : List EdgeTarget) (branch : String) : String :=
  if edges = [] then ""
  else if branch ≠ "" then
    match findBranchTarget branch edges with
    | some t => t
    | none => ""
  else
    match findUnsetTarget edges with
    | some t => t
    | none => edges.headI.targetID

theorem findBranchTarget_eq_find? (branch : String) (edges : List EdgeTarget) :
    findBranchTarget branch edges
      = (edges.find? (fun e => e.sourceHandle == some branch)).map EdgeTarget.targetID := by
  induction edges with
  | nil => rfl
  | cons e rest ih =>
    by_cases h : e.sourceHandle = some branch
    · simp [findBranchTarget, List.find?, h]
    · simp only [findBranchTarget, if_neg h, ih, List.find?]
      have : (e.sourceHandle == some branch) = false := by
        simpa using h
      simp [this]

theorem findUnsetTarget_eq_find? (edges : List EdgeTarget) :
    findUnsetTarget edges
      = (edges.find? (fun e => e.sourceHandle.isNone)).map EdgeTarget.targetID := by
  induction edges with
  | nil => rfl
  | cons e rest ih =>
    by_cases h : e.sourceHandle = none
    · simp [findUnsetTarget, List.find?, h]
    · simp only [findUnsetTarget, if_neg h, ih, List.find?]
      have : e.sourceHandle.isNone = false := by
        cases hs : e.sourceHandle <;> simp_all
      simp [this]

/-- C3: for every list of outgoing edges and every branch tag, `nextNode`
selects: with an empty branch, the first edge whose source handle is
unset; with a non-empty branch, the first edge whose source handle
equals the branch; when the branch lookup finds no match, the empty id
so the walk terminates cleanly; and, as a final fallback when at least
one edge exists but neither selection rule above applied (empty branch,
no handle-less edge), the first edge. -/
theorem c3_nextNode_routing (edges : List EdgeTarget) (branch : String) :
    (edges = [] → nextNode edges branch = "")
    ∧ (∀ e, branch = "" → edges.find? (fun e => e.sourceHandle.isNone) = some e →
        nextNode edges branch = e.targetID)
    ∧ (∀ e, branch ≠ "" → edges.find? (fun e => e.sourceHandle == some branch) = some e →
        nextNode edges branch = e.targetID)
    ∧ (branch ≠ "" → edges.find? (fun e => e.sourceHandle == some branch) = none →
        nextNode edges branch = "")
    ∧ (∀ h : edges ≠ [], branch = "" → edges.find? (fun e => e.sourceHandle.isNone) = none →
        nextNode edges branch = (edges.head h).targetID) := by
  refine ⟨?_, ?_, ?_, ?_, ?_⟩
  · intro h; simp [nextNode, h]
  · intro e hb hf
    have hne : edges ≠ [] := by
      rintro rfl; simp [List.find?] at hf
    simp [nextNode, hne, hb, findUnsetTarget_eq_find?, hf]
  · intro e hb hf
    have hne : edges ≠ [] := by
      rintro rfl; simp [List.find?] at hf
    simp [nextNode, hne, hb, findBranchTarget_eq_find?, hf]
  · intro hb hf
    by_cases hne : edges = []
    · simp [nextNode, hne]
    · simp [nextNode, hne, hb, findBranchTarget_eq_find?, hf]
  · intro h hb hf
    have hh : edges.headI = edges.head h := by
      cases edges with
      | nil => exact absurd rfl h
      | cons e rest => rfl
    simp [nextNode, h, hb, findUnsetTarget_eq_find?, hf, hh]

/-- Witness for C3: a two-edge list with handles `"true"`/`"false"`
routed by branch `"true"` selects the first matching edge. -/
theorem c3_nextNode_routing_witness :
    nextNode [⟨"a", some "true"⟩, ⟨"b", some "false"⟩] "true" = "a" :=
  (c3_nextNode_routing [⟨"a", some "true"⟩, ⟨"b", some "false"⟩] "true").2.2.1
    ⟨"a", some "true"⟩ (by decide) (by decide)

/-! ## Graph walker (`executeWorkflow` in `workflow_test.go`)

The walker is parametric in an environment supplying:
* the cancellation schedule (`ctx.Err()` observed at iteration `i`;
  iteration `i` of the Go loop begins with exactly `i` accumulated
  steps, since every non-returning iteration appends one step),
* the behaviour of the constructed nodes' `Execute` methods (indexed by
  iteration so that repeated executions of the same node inside a loop
  may return different results, as real I/O-backed nodes do),
* the combined `nodeMap`/`nodeInfo` lookup and the adjacency map.
Universally quantified theorems over this environment cover every
behaviour the Go program can exhibit. -/

structure WalkEnv where
  ctxErr : Nat → Option String
  exec : Nat → String → VarMap → Except String ExecutionResult
  nodeOf : String → Option StorageNode
  adjacency : String → List EdgeTarget

/-- Merging of a node's output map into the variable bag
(`for k, v := range result.Output looping nCtx.Variables[k] = v`): each
entry overwrites the key it names, later entries winning (Go map entry
sets are unique-keyed, so entry order is immaterial). -/
def mergeOutput (vars : VarMap) (output : List (String × GoVal)) : VarMap :=
  output.foldl (fun acc kv => fun k => if k = kv.1 then some kv.2 else acc k) vars

/-- Variable bag with no keys. -/
def emptyVars : VarMap := fun _ => none

/-- Step appended when a node's `Execute` returns an error: status
`"error"`, no output, the error message attached. -/
def errorStep (info : StorageNode) (msg : String) : StepResult :=
  { nodeID := info.id, type := info.type, label := info.label,
    description := info.description, status := "error", output := [], error := msg }

/-- Step appended after a successful node execution: the result's
status and output. -/
def successStep (info : StorageNode) (res : ExecutionResult) : StepResult :=
  { nodeID := info.id, type := info.type, label := info.label,
    description := info.description, status := res.status, output := res.output,
    error := "" }

/-- Translation of the walk loop of `executeWorkflow` (step 4 onward):
per iteration, in source order — loop condition `currentID != ""`,
cancellation check, `maxExecutionSteps` guard, node lookup, `Execute`,
error handling, output merge, step append, routing via `nextNode`. -/
def walkModel (env : WalkEnv) (currentID : String) (vars : VarMap)
    (steps : List StepResult) : ExecutionResponse :=
  if currentID = "" then { status := "completed", steps := steps }
  else
    match env.ctxErr steps.length with
    | some cause =>
      { status := "cancelled", steps := steps, failedNode := currentID,
        error := "execution cancelled: " ++ cause }
    | none =>
      if hmax : maxExecutionSteps ≤ steps.length then
        { status := "failed", steps := steps, failedNode := currentID,
          error := "workflow exceeded maximum execution steps" }
      else
        match env.nodeOf currentID with
        | none =>
          { status := "failed", steps := steps, failedNode := currentID,
            error := "node " ++ goQuote currentID ++ " not found in workflow" }
        | some info =>
          match env.exec steps.length currentID vars with
          | .error msg =>
            { status := "failed", steps := steps ++ [errorStep info msg],
              failedNode := info.id,
              error := "node " ++ goQuote info.id ++ " failed: " ++ msg }
          | .ok res =>
            walkModel env (nextNode (env.adjacency currentID) res.branch)
              (mergeOutput vars res.output) (steps ++ [successStep info res])
termination_by maxExecutionSteps + 1 - steps.length
decreasing_by
  simp only [List.length_append, List.length_singleton]
  omega

/-! ## Graph validation (`validateGraph` in `workflow_test.go`) -/

/-- First loop of `validateGraph`: detect duplicate node ids while
remembering the first `start`-typed node whose id is captured
(`startID` is only written while it is still empty). -/
def findDupOrStart : List StorageNode → List String → String → Except String String
  | [], _, startID =>
    if startID = "" then .error "workflow has no start node" else .ok startID
  | n :: rest, seen, startID =>
    if n.id ∈ seen then .error ("duplicate node ID " ++ goQuote n.id)
    else
      findDupOrStart rest (n.id :: seen)
        (if n.type = "start" ∧ startID = "" then n.id else startID)

/-- Inner loop of the adjacency check: every edge target must be a
known node id and must not be the start node. -/
def checkTargets (nodeIDs : List String) (startID : String) :
    List EdgeTarget → Except String Unit
  | [] => .ok ()
  | e :: rest =>
    if e.targetID ∉ nodeIDs then
      .error ("edge references non-existent target node " ++ goQuote e.targetID)
    else if e.targetID = startID then
      .error ("start node " ++ goQuote startID ++ " must not have incoming edges")
    else checkTargets nodeIDs startID rest

/-- Outer loop of the adjacency check: every adjacency source must be a
known node id, then its targets are checked.  The Go code ranges over a
map in arbitrary order; this model fixes one order, and every property
proved about it below is order-independent (see the comments at the
theorems). -/
def checkAdjacency (nodeIDs : List String) (startID : String) :
    List (String × List EdgeTarget) → Except String Unit
  | [] => .ok ()
  | (src, es) :: rest =>
    if src ∉ nodeIDs then
      .error ("edge references non-existent source node " ++ goQuote src)
    else
      match checkTargets nodeIDs startID es with
      | .error e => .error e
      | .ok _ => checkAdjacency nodeIDs startID rest

/-- Translation of `validateGraph`: duplicate detection and start-node
discovery, then the edge checks; returns the start node id. -/
def validateGraph (nodes : List StorageNode)
    (adjacency : List (String × List EdgeTarget)) : Except String String :=
  match findDupOrStart nodes [] "" with
  | .error e => .error e
  | .ok startID =>
    match checkAdjacency (nodes.map StorageNode.id) startID adjacency with
    | .error e => .error e
    | .ok _ => .ok startID

/-! ## Adjacency construction (step 2 of `executeWorkflow`) -/

/-- Ordered outgoing edges of a source node.  The Go adjacency map
accumulates, per source id, the edges in their hydration order; for a
given source this is exactly the sublist of edges with that source. -/
def outgoing (edges : List Edge) (s : String) : List EdgeTarget :=
  (edges.filter (fun e => e.source == s)).map (fun e => ⟨e.target, e.sourceHandle⟩)

/-- Adjacency map as an association list: one entry per distinct source
id, carrying that source's outgoing edges in order.  Entry order stands
in for Go's arbitrary map iteration order; no proved property depends
on it. -/
def buildAdjacency (edges : List Edge) : List (String × List EdgeTarget) :=
  (edges.map Edge.source).dedup.map (fun s => (s, outgoing edges s))

/-! ## Full execution pipeline (`executeWorkflow` steps 1–5)

Node construction (factory `nodes.New` plus `Validate`) involves JSON
metadata parsing and client injection; for the walker claims it is
abstracted as a per-node outcome, with the two distinct hard-error
messages of the Go code. -/

inductive ConstructOutcome where
  | ok
  | newErr (msg : String)
  | validateErr (msg : String)
deriving DecidableEq, Repr, Inhabited

/-- Step 1 of `executeWorkflow`: construct and validate every node,
failing hard (infrastructure error) on the first failure. -/
def constructNodes (construct : StorageNode → ConstructOutcome) :
    List StorageNode → Except String Unit
  | [] => .ok ()
  | n :: rest =>
    match construct n with
    | .newErr msg =>
      .error ("failed to construct node " ++ goQuote n.id ++ ": " ++ msg)
    | .validateErr msg =>
      .error ("node " ++ goQuote n.id ++ " failed validation: " ++ msg)
    | .ok => constructNodes construct rest

/-- Hydrated workflow restricted to what the engine consumes. -/
structure Workflow where
  nodes : List StorageNode
  edges : List Edge

/-- Combined `nodeMap`/`nodeInfo` lookup: both Go maps are written
together keyed by `sn.ID`, later nodes overwriting earlier ones. -/
def nodeOf (nodes : List StorageNode) (id : String) : Option StorageNode :=
  nodes.reverse.find? (fun n => n.id == id)

structure ExecEnv where
  ctxErr : Nat → Option String
  exec : Nat → String → VarMap → Except String ExecutionResult
  construct : StorageNode → ConstructOutcome

def walkEnvOf (env : ExecEnv) (wf : Workflow) : WalkEnv :=
  { ctxErr := env.ctxErr, exec := env.exec,
    nodeOf := nodeOf wf.nodes, adjacency := outgoing wf.edges }

/-- Translation of `executeWorkflow`: construct nodes, build adjacency,
validate the graph, seed the variable bag from the inputs, then walk
from the start node.  Hard errors (construction, validation, graph
structure) are returned on the error channel; everything else is an
`ExecutionResponse`. -/
def executeWorkflowModel (env : ExecEnv) (wf : Workflow)
    (inputs : List (String × GoVal)) : Except String ExecutionResponse :=
  match constructNodes env.construct wf.nodes with
  | .error e => .error e
  | .ok _ =>
    match validateGraph wf.nodes (buildAdjacency wf.edges) with
    | .error e => .error e
    | .ok startID =>
      .ok (walkModel (walkEnvOf env wf) startID (mergeOutput emptyVars inputs) [])

/-! ### Branch equations for `walkModel`

One lemma per return path of the loop body, in source order. -/

theorem walkModel_done (env : WalkEnv) (vars : VarMap) (steps : List StepResult) :
    walkModel env "" vars steps = { status := "completed", steps := steps } := by
  unfold walkModel; simp

theorem walkModel_cancelled (env : WalkEnv) (currentID : String) (vars : VarMap)
    (steps : List StepResult) (cause : String)
    (hcur : currentID ≠ "") (hctx : env.ctxErr steps.length = some cause) :
    walkModel env currentID vars steps =
      { status := "cancelled", steps := steps, failedNode := currentID,
        error := "execution cancelled: " ++ cause } := by
  unfold walkModel; simp [hcur, hctx]

theorem walkModel_maxsteps (env : WalkEnv) (currentID : String) (vars : VarMap)
    (steps : List StepResult)
    (hcur : currentID ≠ "") (hctx : env.ctxErr steps.length = none)
    (hmax : maxExecutionSteps ≤ steps.length) :
    walkModel env currentID vars steps =
      { status := "failed", steps := steps, failedNode := currentID,
        error := "workflow exceeded maximum execution steps" } := by
  unfold walkModel; simp [hcur, hctx, hmax]

theorem walkModel_notFound (env : WalkEnv) (currentID : String) (vars : VarMap)
    (steps : List StepResult)
    (hcur : currentID ≠ "") (hctx : env.ctxErr steps.length = none)
    (hlen : steps.length < maxExecutionSteps)
    (hnode : env.nodeOf currentID = none) :
    walkModel env currentID vars steps =
      { status := "failed", steps := steps, failedNode := currentID,
        error := "node " ++ goQuote currentID ++ " not found in workflow" } := by
  unfold walkModel; simp [hcur, hctx, Nat.not_le_of_lt hlen, hnode]

theorem walkModel_execError (env : WalkEnv) (currentID : String) (vars : VarMap)
    (steps : List StepResult) (info : StorageNode) (msg : String)
    (hcur : currentID ≠ "") (hctx : env.ctxErr steps.length = none)
    (hlen : steps.length < maxExecutionSteps)
    (hnode : env.nodeOf currentID = some info)
    (hexec : env.exec steps.length currentID vars = .error msg) :
    walkModel env currentID vars steps =
      { status := "failed", steps := steps ++ [errorStep info msg],
        failedNode := info.id,
        error := "node " ++ goQuote info.id ++ " failed: " ++ msg } := by
  unfold walkModel; simp [hcur, hctx, Nat.not_le_of_lt hlen, hnode, hexec]

theorem walkModel_execOk (env : WalkEnv) (currentID : String) (vars : VarMap)
    (steps : List StepResult) (info : StorageNode) (res : ExecutionResult)
    (hcur : currentID ≠ "") (hctx : env.ctxErr steps.length = none)
    (hlen : steps.length < maxExecutionSteps)
    (hnode : env.nodeOf currentID = some info)
    (hexec : env.exec steps.length currentID vars = .ok res) :
    walkModel env currentID vars steps =
      walkModel env (nextNode (env.adjacency currentID) res.branch)
        (mergeOutput vars res.output) (steps ++ [successStep info res]) := by
  conv_lhs => unfold walkModel
  simp [hcur, hctx, Nat.not_le_of_lt hlen, hnode, hexec]

/-! ### Walk invariants -/

/-- Step-count invariant: a walk started at or below the limit returns
at most `maxExecutionSteps` steps (`fuel` only drives the induction; it
is instantiated at a value making the bound vacuous). -/
theorem walkModel_length_le (env : WalkEnv) :
    ∀ (fuel : Nat) (currentID : String) (vars : VarMap) (steps : List StepResult),
      maxExecutionSteps + 1 - steps.length ≤ fuel →
      steps.length ≤ maxExecutionSteps →
      (walkModel env currentID vars steps).steps.length ≤ maxExecutionSteps := by
  intro fuel
  induction fuel with
  | zero => intro c vars steps hf hs; omega
  | succ n ih =>
    intro c vars steps hf hs
    by_cases hc : c = ""
    · subst hc; rw [walkModel_done]; exact hs
    · cases hctx : env.ctxErr steps.length with
      | some cause => rw [walkModel_cancelled env c vars steps cause hc hctx]; exact hs
      | none =>
        by_cases hmax : maxExecutionSteps ≤ steps.length
        · rw [walkModel_maxsteps env c vars steps hc hctx hmax]; exact hs
        · have hlen : steps.length < maxExecutionSteps := Nat.lt_of_not_le hmax
          cases hnode : env.nodeOf c with
          | none => rw [walkModel_notFound env c vars steps hc hctx hlen hnode]; exact hs
          | some info =>
            cases hexec : env.exec steps.length c vars with
            | error msg =>
              rw [walkModel_execError env c vars steps info msg hc hctx hlen hnode hexec]
              simp; omega
            | ok res =>
              rw [walkModel_execOk env c vars steps info res hc hctx hlen hnode hexec]
              exact ih _ _ _ (by simp; omega) (by simp; omega)

/-- Error-position invariant: if no accumulated step carries an error
message, then in the response every step except possibly the last one
carries no error message — an error step can only be the final step. -/
theorem walkModel_error_last (env : WalkEnv) :
    ∀ (fuel : Nat) (currentID : String) (vars : VarMap) (steps : List StepResult),
      maxExecutionSteps + 1 - steps.length ≤ fuel →
      (∀ st ∈ steps, st.error = "") →
      ∀ st ∈ (walkModel env currentID vars steps).steps.dropLast, st.error = "" := by
  have hsub : ∀ (l : List StepResult) (st : StepResult), st ∈ l.dropLast → st ∈ l :=
    fun l st h => (List.dropLast_sublist l).subset h
  intro fuel
  induction fuel with
  | zero =>
    intro c vars steps hf hprev
    by_cases hc : c = ""
    · subst hc; rw [walkModel_done]; intro st hst; exact hprev st (hsub _ _ hst)
    · cases hctx : env.ctxErr steps.length with
      | some cause =>
        rw [walkModel_cancelled env c vars steps cause hc hctx]
        intro st hst; exact hprev st (hsub _ _ hst)
      | none =>
        have hmax : maxExecutionSteps ≤ steps.length := by omega
        rw [walkModel_maxsteps env c vars steps hc hctx hmax]
        intro st hst; exact hprev st (hsub _ _ hst)
  | succ n ih =>
    intro c vars steps hf hprev
    by_cases hc : c = ""
    · subst hc; rw [walkModel_done]; intro st hst; exact hprev st (hsub _ _ hst)
    · cases hctx : env.ctxErr steps.length with
      | some cause =>
        rw [walkModel_cancelled env c vars steps cause hc hctx]
        intro st hst; exact hprev st (hsub _ _ hst)
      | none =>
        by_cases hmax : maxExecutionSteps ≤ steps.length
        · rw [walkModel_maxsteps env c vars steps hc hctx hmax]
          intro st hst; exact hprev st (hsub _ _ hst)
        · have hlen : steps.length < maxExecutionSteps := Nat.lt_of_not_le hmax
          cases hnode : env.nodeOf c with
          | none =>
            rw [walkModel_notFound env c vars steps hc hctx hlen hnode]
            intro st hst; exact hprev st (hsub _ _ hst)
          | some info =>
            cases hexec : env.exec steps.length c vars with
            | error msg =>
              rw [walkModel_execError env c vars steps info msg hc hctx hlen hnode hexec]
              intro st hst
              rw [List.dropLast_concat] at hst
              exact hprev st hst
            | ok res =>
              rw [walkModel_execOk env c vars steps info res hc hctx hlen hnode hexec]
              refine ih _ _ _ (by simp; omega) ?_
              intro st hst
              rcases List.mem_append.1 hst with h | h
              · exact hprev st h
              · rcases List.mem_singleton.1 h with rfl; rfl

/-! ### Merge lemmas -/

theorem mergeOutput_cons (vars : VarMap) (kv : String × GoVal)
    (rest : List (String × GoVal)) :
    mergeOutput vars (kv :: rest)
      = mergeOutput (fun k => if k = kv.1 then some kv.2 else vars k) rest := rfl

theorem mergeOutput_notMem (output : List (String × GoVal)) :
    ∀ (vars : VarMap) (k : String), k ∉ output.map Prod.fst →
      mergeOutput vars output k = vars k := by
  induction output with
  | nil => intro vars k _; rfl
  | cons kv rest ih =>
    intro vars k h
    simp only [List.map_cons, List.mem_cons, not_or] at h
    rw [mergeOutput_cons, ih _ k h.2]
    simp [h.1]

theorem mergeOutput_mem (output : List (String × GoVal)) :
    ∀ (vars : VarMap) (k : String) (v : GoVal),
      (output.map Prod.fst).Nodup → (k, v) ∈ output →
      mergeOutput vars output k = some v := by
  induction output with
  | nil => intro vars k v _ h; cases h
  | cons kv rest ih =>
    intro vars k v hnodup h
    rw [mergeOutput_cons]
    rcases List.mem_cons.1 h with rfl | h
    · have hk : k ∉ rest.map Prod.fst := by
        simpa using (List.nodup_cons.1 hnodup).1
      rw [mergeOutput_notMem rest _ k hk]
      simp
    · exact ih _ k v (List.nodup_cons.1 hnodup).2 h

/-! ### Auxiliary facts about `findDupOrStart` / `validateGraph` -/

theorem findDupOrStart_ok_ne :
    ∀ (nodes : List StorageNode) (seen : List String) (st s : String),
      findDupOrStart nodes seen st = .ok s → s ≠ "" := by
  intro nodes
  induction nodes with
  | nil =>
    intro seen st s h
    unfold findDupOrStart at h
    by_cases hst : st = ""
    · simp [hst] at h
    · rw [if_neg hst] at h
      cases h
      exact hst
  | cons n rest ih =>
    intro seen st s h
    unfold findDupOrStart at h
    by_cases hmem : n.id ∈ seen
    · simp [hmem] at h
    · rw [if_neg hmem] at h
      exact ih _ _ _ h

theorem validateGraph_ok_ne (nodes : List StorageNode)
    (adjacency : List (String × List EdgeTarget)) (s : String)
    (h : validateGraph nodes adjacency = .ok s) : s ≠ "" := by
  unfold validateGraph at h
  split at h
  · cases h
  · split at h
    · cases h
    · cases h
      exact findDupOrStart_ok_ne nodes [] "" s (by assumption)

/-! ### Characterization of `findDupOrStart` -/

/-- Evolution of the `startID` accumulator of the first loop of
`validateGraph` in isolation: it is written only while still empty. -/
def firstStartFrom (st : String) : List StorageNode → String
  | [] => st
  | n :: rest => firstStartFrom (if n.type = "start" ∧ st = "" then n.id else st) rest

/-- First `start`-typed node of the sequence, if any. -/
def firstStart? (nodes : List StorageNode) : Option StorageNode :=
  (nodes.filter (fun n => n.type == "start")).head?

theorem firstStartFrom_ne (nodes : List StorageNode) :
    ∀ st : String, st ≠ "" → firstStartFrom st nodes = st := by
  induction nodes with
  | nil => intro st _; rfl
  | cons n rest ih =>
    intro st hst
    unfold firstStartFrom
    rw [if_neg (fun hc => hst hc.2)]
    exact ih st hst

theorem firstStart?_mem (nodes : List StorageNode) (n0 : StorageNode)
    (h : firstStart? nodes = some n0) : n0 ∈ nodes ∧ n0.type = "start" := by
  unfold firstStart? at h
  have hmem : n0 ∈ nodes.filter (fun n => n.type == "start") := by
    cases hl : nodes.filter (fun n => n.type == "start") with
    | nil => rw [hl] at h; cases h
    | cons a t =>
      rw [hl] at h
      have ha : a = n0 := by simpa using h
      subst ha
      exact hl ▸ List.mem_cons_self a t
  have hf := List.mem_filter.1 hmem
  exact ⟨hf.1, by simpa using hf.2⟩

theorem firstStartFrom_eq_some (nodes : List StorageNode) (n0 : StorageNode)
    (hids : ∀ n ∈ nodes, n.id ≠ "")
    (h : firstStart? nodes = some n0) : firstStartFrom "" nodes = n0.id := by
  induction nodes with
  | nil => simp [firstStart?] at h
  | cons n rest ih =>
    by_cases ht : n.type = "start"
    · have hh : firstStart? (n :: rest) = some n := by
        simp [firstStart?, List.filter_cons, ht]
      rw [hh] at h
      cases h
      unfold firstStartFrom
      rw [if_pos ⟨ht, rfl⟩]
      exact firstStartFrom_ne rest n0.id (hids n0 (List.mem_cons_self n0 rest))
    · have hh : firstStart? (n :: rest) = firstStart? rest := by
        simp [firstStart?, List.filter_cons, ht]
      unfold firstStartFrom
      rw [if_neg (fun hc => ht hc.1)]
      exact ih (fun m hm => hids m (List.mem_cons_of_mem n hm)) (hh ▸ h)

theorem findDupOrStart_eq (nodes : List StorageNode) :
    ∀ (seen : List String) (st : String),
      (nodes.map StorageNode.id ++ seen).Nodup →
      findDupOrStart nodes seen st =
        if firstStartFrom st nodes = "" then .error "workflow has no start node"
        else .ok (firstStartFrom st nodes) := by
  induction nodes with
  | nil => intro seen st _; rfl
  | cons n rest ih =>
    intro seen st hnodup
    rw [List.map_cons, List.cons_append, List.nodup_cons] at hnodup
    have hmem : n.id ∉ seen := fun hc => hnodup.1 (List.mem_append_right _ hc)
    unfold findDupOrStart firstStartFrom
    rw [if_neg hmem]
    exact ih (n.id :: seen) _ (List.perm_middle.symm.nodup (List.nodup_cons.2 hnodup))

theorem findDupOrStart_dup (nodes : List StorageNode) :
    ∀ (seen : List String) (st : String),
      (¬ (nodes.map StorageNode.id).Nodup ∨ ∃ n ∈ nodes, n.id ∈ seen) →
      ∃ msg, findDupOrStart nodes seen st = .error msg := by
  induction nodes with
  | nil =>
    intro seen st h
    rcases h with h | ⟨n, hn, _⟩
    · exact absurd List.nodup_nil h
    · cases hn
  | cons n rest ih =>
    intro seen st h
    by_cases hmem : n.id ∈ seen
    · exact ⟨_, by unfold findDupOrStart; rw [if_pos hmem]⟩
    · unfold findDupOrStart
      rw [if_neg hmem]
      apply ih
      rcases h with h | ⟨m, hm, hmseen⟩
      · rw [List.map_cons, List.nodup_cons, not_and_or] at h
        rcases h with h | h
        · rw [not_not] at h
          obtain ⟨m, hm, hmid⟩ := List.mem_map.1 h
          exact Or.inr ⟨m, hm, by rw [hmid]; exact List.mem_cons_self _ _⟩
        · exact Or.inl h
      · rcases List.mem_cons.1 hm with rfl | hm
        · exact absurd hmseen hmem
        · exact Or.inr ⟨m, hm, List.mem_cons_of_mem _ hmseen⟩

theorem findDupOrStart_ok_start (nodes : List StorageNode) :
    ∀ (seen : List String) (s : String),
      findDupOrStart nodes seen "" = .ok s → ∃ n ∈ nodes, n.type = "start" := by
  induction nodes with
  | nil =>
    intro seen s h
    unfold findDupOrStart at h
    simp at h
  | cons n rest ih =>
    intro seen s h
    unfold findDupOrStart at h
    by_cases hmem : n.id ∈ seen
    · simp [hmem] at h
    · rw [if_neg hmem] at h
      by_cases ht : n.type = "start"
      · exact ⟨n, List.mem_cons_self _ _, ht⟩
      · rw [if_neg (fun hc => ht hc.1)] at h
        obtain ⟨m, hm, hmt⟩ := ih _ _ h
        exact ⟨m, List.mem_cons_of_mem _ hm, hmt⟩

/-! ### Characterization of the adjacency checks -/

theorem checkTargets_ok_iff (ids : List String) (startID : String) :
    ∀ es : List EdgeTarget,
      checkTargets ids startID es = .ok () ↔
      ∀ e ∈ es, e.targetID ∈ ids ∧ e.targetID ≠ startID := by
  intro es
  induction es with
  | nil => simp [checkTargets]
  | cons e rest ih =>
    unfold checkTargets
    by_cases h1 : e.targetID ∈ ids
    · rw [if_neg (not_not_intro h1)]
      by_cases h2 : e.targetID = startID
      · rw [if_pos h2]
        constructor
        · intro hc; cases hc
        · intro hc; exact absurd h2 (hc e (List.mem_cons_self _ _)).2
      · rw [if_neg h2, ih]
        constructor
        · intro hr m hm
          rcases List.mem_cons.1 hm with rfl | hm
          · exact ⟨h1, h2⟩
          · exact hr m hm
        · intro hr m hm
          exact hr m (List.mem_cons_of_mem _ hm)
    · rw [if_pos h1]
      constructor
      · intro hc; cases hc
      · intro hc; exact absurd (hc e (List.mem_cons_self _ _)).1 h1

theorem checkTargets_startErr (ids : List String) (startID : String) :
    ∀ es : List EdgeTarget,
      (∀ e ∈ es, e.targetID ∈ ids) →
      (∃ e ∈ es, e.targetID = startID) →
      checkTargets ids startID es =
        .error ("start node " ++ goQuote startID ++ " must not have incoming edges") := by
  intro es
  induction es with
  | nil => rintro _ ⟨e, he, _⟩; cases he
  | cons e rest ih =>
    intro hin hex
    unfold checkTargets
    rw [if_neg (not_not_intro (hin e (List.mem_cons_self _ _)))]
    by_cases h2 : e.targetID = startID
    · rw [if_pos h2]
    · rw [if_neg h2]
      apply ih (fun m hm => hin m (List.mem_cons_of_mem _ hm))
      obtain ⟨m, hm, hms⟩ := hex
      rcases List.mem_cons.1 hm with rfl | hm
      · exact absurd hms h2
      · exact ⟨m, hm, hms⟩

theorem checkAdjacency_ok_iff (ids : List String) (startID : String) :
    ∀ adj : List (String × List EdgeTarget),
      checkAdjacency ids startID adj = .ok () ↔
      ∀ p ∈ adj, p.1 ∈ ids ∧ ∀ e ∈ p.2, e.targetID ∈ ids ∧ e.targetID ≠ startID := by
  intro adj
  induction adj with
  | nil => simp [checkAdjacency]
  | cons p rest ih =>
    obtain ⟨src, es⟩ := p
    unfold checkAdjacency
    by_cases h1 : src ∈ ids
    · rw [if_neg (not_not_intro h1)]
      cases hct : checkTargets ids startID es with
      | error msg =>
        constructor
        · intro hc; cases hc
        · intro hc
          have := ((checkTargets_ok_iff ids startID es).2 (hc (src, es)
            (List.mem_cons_self _ _)).2)
          rw [hct] at this
          cases this
      | ok u =>
        cases u
        rw [ih]
        constructor
        · intro hr q hq
          rcases List.mem_cons.1 hq with rfl | hq
          · exact ⟨h1, (checkTargets_ok_iff ids startID es).1 hct⟩
          · exact hr q hq
        · intro hr q hq
          exact hr q (List.mem_cons_of_mem _ hq)
    · rw [if_pos h1]
      constructor
      · intro hc; cases hc
      · intro hc; exact absurd (hc (src, es) (List.mem_cons_self _ _)).1 h1

theorem checkAdjacency_startErr (ids : List String) (startID : String) :
    ∀ adj : List (String × List EdgeTarget),
      (∀ p ∈ adj, p.1 ∈ ids) →
      (∀ p ∈ adj, ∀ e ∈ p.2, e.targetID ∈ ids) →
      (∃ p ∈ adj, ∃ e ∈ p.2, e.targetID = startID) →
      checkAdjacency ids startID adj =
        .error ("start node " ++ goQuote startID ++ " must not have incoming edges") := by
  intro adj
  induction adj with
  | nil => rintro _ _ ⟨p, hp, _⟩; cases hp
  | cons p rest ih =>
    intro hsrc htgt hex
    obtain ⟨src, es⟩ := p
    unfold checkAdjacency
    rw [if_neg (not_not_intro (hsrc (src, es) (List.mem_cons_self _ _)))]
    by_cases hes : ∃ e ∈ es, e.targetID = startID
    · rw [checkTargets_startErr ids startID es
        (fun e he => htgt (src, es) (List.mem_cons_self _ _) e he) hes]
    · have hok : checkTargets ids startID es = .ok () := by
        rw [checkTargets_ok_iff]
        intro e he
        exact ⟨htgt (src, es) (List.mem_cons_self _ _) e he,
          fun hc => hes ⟨e, he, hc⟩⟩
      rw [hok]
      apply ih (fun q hq => hsrc q (List.mem_cons_of_mem _ hq))
        (fun q hq => htgt q (List.mem_cons_of_mem _ hq))
      obtain ⟨q, hq, he⟩ := hex
      rcases List.mem_cons.1 hq with rfl | hq
      · obtain ⟨e, he, hes'⟩ := he
        exact absurd ⟨e, he, hes'⟩ hes
      · exact ⟨q, hq, he⟩

/-! ### Bridging the adjacency list back to the edge sequence -/

theorem mem_outgoing (edges : List Edge) (s : String) (et : EdgeTarget) :
    et ∈ outgoing edges s ↔
    ∃ e ∈ edges, e.source = s ∧ et = ⟨e.target, e.sourceHandle⟩ := by
  unfold outgoing
  simp only [List.mem_map, List.mem_filter, beq_iff_eq]
  constructor
  · rintro ⟨e, ⟨he, hs⟩, rfl⟩
    exact ⟨e, he, hs, rfl⟩
  · rintro ⟨e, he, hs, rfl⟩
    exact ⟨e, ⟨he, hs⟩, rfl⟩

theorem mem_buildAdjacency (edges : List Edge) (p : String × List EdgeTarget) :
    p ∈ buildAdjacency edges ↔
    (∃ e ∈ edges, e.source = p.1) ∧ p.2 = outgoing edges p.1 := by
  unfold buildAdjacency
  simp only [List.mem_map, List.mem_dedup]
  constructor
  · rintro ⟨s, hs, rfl⟩
    exact ⟨hs, rfl⟩
  · rintro ⟨⟨e, he, hes⟩, h2⟩
    obtain ⟨s, es⟩ := p
    exact ⟨s, ⟨e, he, hes⟩, by rw [show es = outgoing edges s from h2]⟩

/-! ### validateGraph: assembled characterizations -/

theorem validateGraph_ok_of (nodes : List StorageNode) (edges : List Edge)
    (n0 : StorageNode)
    (hids : ∀ n ∈ nodes, n.id ≠ "")
    (hstart : firstStart? nodes = some n0)
    (hnodup : (nodes.map StorageNode.id).Nodup)
    (hends : ∀ e ∈ edges, e.source ∈ nodes.map StorageNode.id ∧
      e.target ∈ nodes.map StorageNode.id)
    (hnoin : ∀ e ∈ edges, e.target ≠ n0.id) :
    validateGraph nodes (buildAdjacency edges) = .ok n0.id := by
  have hfs : firstStartFrom "" nodes = n0.id := firstStartFrom_eq_some nodes n0 hids hstart
  have hne : n0.id ≠ "" := hids n0 (firstStart?_mem nodes n0 hstart).1
  have hfd : findDupOrStart nodes [] "" = .ok n0.id := by
    rw [findDupOrStart_eq nodes [] "" (by simpa using hnodup), hfs, if_neg hne]
  have hca : checkAdjacency (nodes.map StorageNode.id) n0.id (buildAdjacency edges)
      = .ok () := by
    rw [checkAdjacency_ok_iff]
    intro p hp
    obtain ⟨⟨e, he, hes⟩, hp2⟩ := (mem_buildAdjacency edges p).1 hp
    refine ⟨hes ▸ (hends e he).1, ?_⟩
    intro et het
    rw [hp2] at het
    obtain ⟨e', he', _, rfl⟩ := (mem_outgoing edges p.1 et).1 het
    exact ⟨(hends e' he').2, hnoin e' he'⟩
  unfold validateGraph
  rw [hfd]
  dsimp only
  rw [hca]

theorem validateGraph_ok_inv (nodes : List StorageNode) (edges : List Edge) (s : String)
    (h : validateGraph nodes (buildAdjacency edges) = .ok s) :
    (nodes.map StorageNode.id).Nodup
    ∧ (∀ e ∈ edges, e.source ∈ nodes.map StorageNode.id ∧
        e.target ∈ nodes.map StorageNode.id)
    ∧ (∃ n ∈ nodes, n.type = "start")
    ∧ (∀ e ∈ edges, e.target ≠ s)
    ∧ ((∀ n ∈ nodes, n.id ≠ "") →
        ∀ n0, firstStart? nodes = some n0 → s = n0.id) := by
  unfold validateGraph at h
  split at h
  · cases h
  · rename_i startID heq
    split at h
    · cases h
    · rename_i u heq2
      cases h
      have hnodup : (nodes.map StorageNode.id).Nodup := by
        by_contra hnd
        obtain ⟨msg, hmsg⟩ := findDupOrStart_dup nodes [] "" (Or.inl hnd)
        rw [hmsg] at heq
        cases heq
      have hadj := (checkAdjacency_ok_iff _ _ _).1 (by cases u; exact heq2)
      refine ⟨hnodup, ?_, findDupOrStart_ok_start nodes [] s heq, ?_, ?_⟩
      · intro e he
        have hp := hadj (e.source, outgoing edges e.source)
          ((mem_buildAdjacency edges _).2 ⟨⟨e, he, rfl⟩, rfl⟩)
        have het := hp.2 ⟨e.target, e.sourceHandle⟩
          ((mem_outgoing edges e.source _).2 ⟨e, he, rfl, rfl⟩)
        exact ⟨hp.1, het.1⟩
      · intro e he
        have hp := hadj (e.source, outgoing edges e.source)
          ((mem_buildAdjacency edges _).2 ⟨⟨e, he, rfl⟩, rfl⟩)
        exact (hp.2 ⟨e.target, e.sourceHandle⟩
          ((mem_outgoing edges e.source _).2 ⟨e, he, rfl, rfl⟩)).2
      · intro hids n0 hstart
        rw [findDupOrStart_eq nodes [] "" (by simpa using hnodup),
          firstStartFrom_eq_some nodes n0 hids hstart,
          if_neg (hids n0 (firstStart?_mem nodes n0 hstart).1)] at heq
        cases heq
        rfl

theorem validateGraph_startEdge (nodes : List StorageNode) (edges : List Edge)
    (n0 : StorageNode)
    (hids : ∀ n ∈ nodes, n.id ≠ "")
    (hstart : firstStart? nodes = some n0)
    (hnodup : (nodes.map StorageNode.id).Nodup)
    (hends : ∀ e ∈ edges, e.source ∈ nodes.map StorageNode.id ∧
      e.target ∈ nodes.map StorageNode.id)
    (hin : ∃ e ∈ edges, e.target = n0.id) :
    validateGraph nodes (buildAdjacency edges) =
      .error ("start node " ++ goQuote n0.id ++ " must not have incoming edges") := by
  have hfs : firstStartFrom "" nodes = n0.id := firstStartFrom_eq_some nodes n0 hids hstart
  have hne : n0.id ≠ "" := hids n0 (firstStart?_mem nodes n0 hstart).1
  have hfd : findDupOrStart nodes [] "" = .ok n0.id := by
    rw [findDupOrStart_eq nodes [] "" (by simpa using hnodup), hfs, if_neg hne]
  have hca : checkAdjacency (nodes.map StorageNode.id) n0.id (buildAdjacency edges)
      = .error ("start node " ++ goQuote n0.id ++ " must not have incoming edges") := by
    apply checkAdjacency_startErr
    · intro p hp
      obtain ⟨⟨e, he, hes⟩, _⟩ := (mem_buildAdjacency edges p).1 hp
      exact hes ▸ (hends e he).1
    · intro p hp et het
      obtain ⟨⟨e, he, hes⟩, hp2⟩ := (mem_buildAdjacency edges p).1 hp
      rw [hp2] at het
      obtain ⟨e', he', _, rfl⟩ := (mem_outgoing edges p.1 et).1 het
      exact (hends e' he').2
    · obtain ⟨e, he, hetgt⟩ := hin
      exact ⟨(e.source, outgoing edges e.source),
        (mem_buildAdjacency edges _).2 ⟨⟨e, he, rfl⟩, rfl⟩,
        ⟨e.target, e.sourceHandle⟩,
        (mem_outgoing edges e.source _).2 ⟨e, he, rfl, rfl⟩, hetgt⟩
  unfold validateGraph
  rw [hfd]
  dsimp only
  rw [hca]

/-! ### Claim C1 -/

/-- C1: every response produced by `executeWorkflow` carries at most
100 steps; and whenever an iteration of the walk begins with 100
accumulated steps (and the cancellation check that precedes the guard
in the source has not tripped), the walker returns status `failed`,
`failed_node` set to the current node id, and the error message
`workflow exceeded maximum execution steps`, without executing that
node — the conclusion leaves the steps unchanged and holds for every
`exec`/`nodeOf` environment, so the node is provably not consulted. -/
theorem c1_step_limit :
    (∀ (env : ExecEnv) (wf : Workflow) (inputs : List (String × GoVal))
        (resp : ExecutionResponse),
        executeWorkflowModel env wf inputs = .ok resp →
        resp.steps.length ≤ maxExecutionSteps)
    ∧ (∀ (env : WalkEnv) (currentID : String) (vars : VarMap)
        (steps : List StepResult),
        currentID ≠ "" →
        env.ctxErr steps.length = none →
        steps.length = maxExecutionSteps →
        walkModel env currentID vars steps =
          { status := "failed", steps := steps, failedNode := currentID,
            error := "workflow exceeded maximum execution steps" }) := by
  constructor
  · intro env wf inputs resp h
    unfold executeWorkflowModel at h
    cases hcn : constructNodes env.construct wf.nodes with
    | error e => rw [hcn] at h; cases h
    | ok _ =>
      rw [hcn] at h
      cases hvg : validateGraph wf.nodes (buildAdjacency wf.edges) with
      | error e => rw [hvg] at h; cases h
      | ok startID =>
        rw [hvg] at h
        cases h
        exact walkModel_length_le _ (maxExecutionSteps + 1) _ _ _ (by simp) (by simp)
  · intro env c vars steps hc hctx hlen
    exact walkModel_maxsteps env c vars steps hc hctx (le_of_eq hlen.symm)

/-- Witness for C1: a walk iteration beginning at node `"n"` with 100
accumulated steps returns the step-limit failure unchanged. -/
theorem c1_step_limit_witness :
    walkModel
      { ctxErr := fun _ => none, exec := fun _ _ _ => .ok default,
        nodeOf := fun _ => none, adjacency := fun _ => [] }
      "n" emptyVars (List.replicate 100 default) =
      { status := "failed", steps := List.replicate 100 default, failedNode := "n",
        error := "workflow exceeded maximum execution steps" } :=
  c1_step_limit.2 _ "n" emptyVars _ (by decide) rfl (by simp [maxExecutionSteps])

/-! ### Claim C5 -/

/-- C5: if the workflow-scoped cancellation is already tripped when a
walk iteration begins, the walker returns status `cancelled`,
`failed_node` set to the node it was about to run, and the message
`execution cancelled: <cause>`; started from the beginning with the
cancellation already tripped, `failed_node` is the start node and the
steps are empty.  The conclusions hold for every `exec` environment and
leave the steps unchanged, so no node's `Execute` is invoked from that
point on. -/
theorem c5_pre_cancelled :
    (∀ (env : WalkEnv) (currentID : String) (vars : VarMap)
        (steps : List StepResult) (cause : String),
        currentID ≠ "" →
        env.ctxErr steps.length = some cause →
        walkModel env currentID vars steps =
          { status := "cancelled", steps := steps, failedNode := currentID,
            error := "execution cancelled: " ++ cause })
    ∧ (∀ (env : ExecEnv) (wf : Workflow) (inputs : List (String × GoVal))
        (startID : String) (cause : String),
        constructNodes env.construct wf.nodes = .ok () →
        validateGraph wf.nodes (buildAdjacency wf.edges) = .ok startID →
        env.ctxErr 0 = some cause →
        executeWorkflowModel env wf inputs =
          .ok { status := "cancelled", steps := [], failedNode := startID,
                error := "execution cancelled: " ++ cause }) := by
  constructor
  · exact fun env c vars steps cause hc hctx =>
      walkModel_cancelled env c vars steps cause hc hctx
  · intro env wf inputs startID cause hcn hvg hctx
    unfold executeWorkflowModel
    rw [hcn]
    dsimp only
    rw [hvg]
    dsimp only
    rw [walkModel_cancelled (walkEnvOf env wf) startID (mergeOutput emptyVars inputs) []
      cause (validateGraph_ok_ne _ _ _ hvg) hctx]

/-- Witness for C5: cancelling before the first step of a one-node
workflow yields the cancelled response at the start node, with no
steps. -/
theorem c5_pre_cancelled_witness :
    executeWorkflowModel
      { ctxErr := fun _ => some "context canceled",
        exec := fun _ _ _ => .ok default, construct := fun _ => .ok }
      { nodes := [{ id := "start", type := "start", label := "S", description := "" }],
        edges := [] } [] =
      .ok { status := "cancelled", steps := [], failedNode := "start",
            error := "execution cancelled: context canceled" } :=
  c5_pre_cancelled.2 _ _ [] "start" "context canceled" rfl (by rfl) rfl

/-! ### Claim C4 -/

/-- C4: when a node's `Execute` returns an error, the walker appends a
step with status `error` carrying the error message as the last
element of the steps, and returns status `failed`, `failed_node` set to
that node's id and error text `node "<id>" failed: <msg>`; in any full
walk (started with empty steps) every step except possibly the last
carries no error, so the error step can only ever be the final one and
the preceding steps are the successfully executed nodes in traversal
order. -/
theorem c4_node_failure :
    (∀ (env : WalkEnv) (currentID : String) (vars : VarMap)
        (steps : List StepResult) (info : StorageNode) (msg : String),
        currentID ≠ "" →
        env.ctxErr steps.length = none →
        steps.length < maxExecutionSteps →
        env.nodeOf currentID = some info →
        env.exec steps.length currentID vars = .error msg →
        walkModel env currentID vars steps =
          { status := "failed", steps := steps ++ [errorStep info msg],
            failedNode := info.id,
            error := "node " ++ goQuote info.id ++ " failed: " ++ msg }
          ∧ (errorStep info msg).status = "error"
          ∧ (errorStep info msg).error = msg)
    ∧ (∀ (env : WalkEnv) (currentID : String) (vars : VarMap),
        ∀ st ∈ (walkModel env currentID vars []).steps.dropLast, st.error = "") := by
  constructor
  · intro env c vars steps info msg hc hctx hlen hnode hexec
    exact ⟨walkModel_execError env c vars steps info msg hc hctx hlen hnode hexec, rfl, rfl⟩
  · intro env c vars
    exact walkModel_error_last env (maxExecutionSteps + 1) c vars []
      (by simp) (by simp)

/-- Witness for C4: a node failing with message `boom` produces the
failed response with the error step appended last. -/
theorem c4_node_failure_witness :
    walkModel
      { ctxErr := fun _ => none, exec := fun _ _ _ => .error "boom",
        nodeOf := fun s => if s = "n" then some ⟨"n", "form", "L", "D"⟩ else none,
        adjacency := fun _ => [] }
      "n" emptyVars [] =
      { status := "failed",
        steps := [errorStep ⟨"n", "form", "L", "D"⟩ "boom"],
        failedNode := "n",
        error := "node " ++ goQuote "n" ++ " failed: " ++ "boom" }
      ∧ (errorStep ⟨"n", "form", "L", "D"⟩ "boom").status = "error"
      ∧ (errorStep ⟨"n", "form", "L", "D"⟩ "boom").error = "boom" :=
  c4_node_failure.1 _ "n" emptyVars [] ⟨"n", "form", "L", "D"⟩ "boom"
    (by decide) rfl (by simp [maxExecutionSteps]) (by simp) rfl

/-! ### Claim C8 -/

/-- C8: after every successful node execution the walker merges the
node's output into the runtime context before routing: the walk
continues at the routed node with the merged variable bag and the
appended success step; in the merged bag every key present in the
output maps to the output's value (last write wins) and every other key
keeps its previous value. -/
theorem c8_output_merge :
    ∀ (env : WalkEnv) (currentID : String) (vars : VarMap)
      (steps : List StepResult) (info : StorageNode) (res : ExecutionResult),
      currentID ≠ "" →
      env.ctxErr steps.length = none →
      steps.length < maxExecutionSteps →
      env.nodeOf currentID = some info →
      env.exec steps.length currentID vars = .ok res →
      walkModel env currentID vars steps =
        walkModel env (nextNode (env.adjacency currentID) res.branch)
          (mergeOutput vars res.output) (steps ++ [successStep info res])
      ∧ (∀ (k : String) (v : GoVal), (res.output.map Prod.fst).Nodup →
          (k, v) ∈ res.output → mergeOutput vars res.output k = some v)
      ∧ (∀ k : String, k ∉ res.output.map Prod.fst →
          mergeOutput vars res.output k = vars k) := by
  intro env c vars steps info res hc hctx hlen hnode hexec
  exact ⟨walkModel_execOk env c vars steps info res hc hctx hlen hnode hexec,
    fun k v hnodup hmem => mergeOutput_mem res.output vars k v hnodup hmem,
    fun k hk => mergeOutput_notMem res.output vars k hk⟩

/-- Witness for C8: a node writing `temperature` continues the walk
with the merged bag, which maps `temperature` to the new value and
leaves `name` untouched. -/
theorem c8_output_merge_witness :
    walkModel
      { ctxErr := fun _ => none,
        exec := fun _ _ _ => .ok ⟨"completed", [("temperature", .float 28)], ""⟩,
        nodeOf := fun s => if s = "w" then some ⟨"w", "integration", "L", "D"⟩ else none,
        adjacency := fun _ => [] }
      "w" emptyVars [] =
      walkModel
        { ctxErr := fun _ => none,
          exec := fun _ _ _ => .ok ⟨"completed", [("temperature", .float 28)], ""⟩,
          nodeOf := fun s => if s = "w" then some ⟨"w", "integration", "L", "D"⟩ else none,
          adjacency := fun _ => [] }
        (nextNode [] "") (mergeOutput emptyVars [("temperature", .float 28)])
        ([] ++ [successStep ⟨"w", "integration", "L", "D"⟩
          ⟨"completed", [("temperature", .float 28)], ""⟩])
      ∧ mergeOutput emptyVars [("temperature", .float 28)] "temperature" =
          some (.float 28)
      ∧ mergeOutput emptyVars [("temperature", .float 28)] "name" = emptyVars "name" := by
  have h := c8_output_merge
    { ctxErr := fun _ => none,
      exec := fun _ _ _ => .ok ⟨"completed", [("temperature", .float 28)], ""⟩,
      nodeOf := fun s => if s = "w" then some ⟨"w", "integration", "L", "D"⟩ else none,
      adjacency := fun _ => [] }
    "w" emptyVars [] ⟨"w", "integration", "L", "D"⟩
    ⟨"completed", [("temperature", .float 28)], ""⟩
    (by decide) rfl (by simp [maxExecutionSteps]) (by simp) rfl
  exact ⟨h.1, h.2.1 "temperature" (.float 28) (by simp) (by simp),
    h.2.2 "name" (by simp)⟩

/-! ### Claims C2 and C10 -/

/-- C2: `validateGraph` returns the start node's id and no error for
every hydrated workflow (with the non-degenerate ids the persistence
layer produces, i.e. no empty instance id) whose instance ids are
unique, whose edges all reference known instance ids, and whose start
node has no incoming edges — cycles included, since no acyclicity is
required; otherwise (duplicate id, dangling edge endpoint, no start
node, or an edge into the start node) it returns an error, in the last
case exactly `start node "<id>" must not have incoming edges`; and a
validation error is returned by `executeWorkflow` before any node is
executed (the conclusion is independent of the execution environment).
The Go code ranges over the adjacency map in arbitrary order; each
conclusion below is order-independent (the `ok` value, the existence of
an error, and the incoming-edge message when all other checks pass). -/
theorem c2_validateGraph (nodes : List StorageNode) (edges : List Edge)
    (hids : ∀ n ∈ nodes, n.id ≠ "") :
    (∀ n0, firstStart? nodes = some n0 →
      (nodes.map StorageNode.id).Nodup →
      (∀ e ∈ edges, e.source ∈ nodes.map StorageNode.id ∧
        e.target ∈ nodes.map StorageNode.id) →
      (∀ e ∈ edges, e.target ≠ n0.id) →
      validateGraph nodes (buildAdjacency edges) = .ok n0.id)
    ∧ ((¬ (nodes.map StorageNode.id).Nodup
        ∨ (∃ e ∈ edges, e.source ∉ nodes.map StorageNode.id ∨
            e.target ∉ nodes.map StorageNode.id)
        ∨ (∀ n ∈ nodes, n.type ≠ "start")
        ∨ (∃ n0, firstStart? nodes = some n0 ∧ ∃ e ∈ edges, e.target = n0.id)) →
      ∃ msg, validateGraph nodes (buildAdjacency edges) = .error msg)
    ∧ (∀ n0, firstStart? nodes = some n0 →
      (nodes.map StorageNode.id).Nodup →
      (∀ e ∈ edges, e.source ∈ nodes.map StorageNode.id ∧
        e.target ∈ nodes.map StorageNode.id) →
      (∃ e ∈ edges, e.target = n0.id) →
      validateGraph nodes (buildAdjacency edges) =
        .error ("start node " ++ goQuote n0.id ++ " must not have incoming edges"))
    ∧ (∀ (env : ExecEnv) (inputs : List (String × GoVal)) (msg : String),
        constructNodes env.construct nodes = .ok () →
        validateGraph nodes (buildAdjacency edges) = .error msg →
        executeWorkflowModel env ⟨nodes, edges⟩ inputs = .error msg) := by
  refine ⟨?_, ?_, ?_, ?_⟩
  · intro n0 hstart hnodup hends hnoin
    exact validateGraph_ok_of nodes edges n0 hids hstart hnodup hends hnoin
  · intro h
    cases hvg : validateGraph nodes (buildAdjacency edges) with
    | error msg => exact ⟨msg, rfl⟩
    | ok s =>
      exfalso
      obtain ⟨hnodup, hends, hex, hnoin, hfs⟩ := validateGraph_ok_inv nodes edges s hvg
      rcases h with h | ⟨e, he, h⟩ | h | ⟨n0, hstart, e, he, hetgt⟩
      · exact h hnodup
      · rcases h with h | h
        · exact h (hends e he).1
        · exact h (hends e he).2
      · obtain ⟨n, hn, hnt⟩ := hex
        exact h n hn hnt
      · exact hnoin e he (hetgt.trans (hfs hids n0 hstart).symm)
  · intro n0 hstart hnodup hends hin
    exact validateGraph_startEdge nodes edges n0 hids hstart hnodup hends hin
  · intro env inputs msg hcn hvg
    unfold executeWorkflowModel
    rw [hcn]
    dsimp only
    rw [hvg]

/-- Witness for C2: the workflow `start → a → start` (scenario 4 of the
spec) is rejected with exactly the incoming-edge message. -/
theorem c2_validateGraph_witness :
    validateGraph
      [{ id := "start", type := "start", label := "S", description := "" },
       { id := "a", type := "form", label := "A", description := "" }]
      (buildAdjacency
        [{ id := "e1", source := "start", target := "a", sourceHandle := none },
         { id := "e2", source := "a", target := "start", sourceHandle := none }]) =
      .error ("start node " ++ goQuote "start" ++ " must not have incoming edges") :=
  (c2_validateGraph
    [{ id := "start", type := "start", label := "S", description := "" },
     { id := "a", type := "form", label := "A", description := "" }]
    [{ id := "e1", source := "start", target := "a", sourceHandle := none },
     { id := "e2", source := "a", target := "start", sourceHandle := none }]
    (by decide)).2.2.1
    { id := "start", type := "start", label := "S", description := "" }
    (by decide) (by decide) (by decide)
    ⟨{ id := "e2", source := "a", target := "start", sourceHandle := none },
      by decide, rfl⟩

/-- C10: a workflow containing more than one `start`-typed node is not
rejected for that reason: `validateGraph` returns the id of the first
`start`-typed node in the node sequence, and only edges into that first
start node are treated as illegal incoming edges — a graph whose edges
avoid the first start node validates successfully even when some edge
targets a later `start`-typed node. -/
theorem c10_multiple_starts (nodes : List StorageNode) (edges : List Edge)
    (n0 later : StorageNode)
    (hids : ∀ n ∈ nodes, n.id ≠ "")
    (hstart : firstStart? nodes = some n0)
    (hlater : later ∈ nodes) (hltype : later.type = "start")
    (hlne : later.id ≠ n0.id)
    (hnodup : (nodes.map StorageNode.id).Nodup)
    (hends : ∀ e ∈ edges, e.source ∈ nodes.map StorageNode.id ∧
      e.target ∈ nodes.map StorageNode.id)
    (hnoin : ∀ e ∈ edges, e.target ≠ n0.id) :
    validateGraph nodes (buildAdjacency edges) = .ok n0.id :=
  validateGraph_ok_of nodes edges n0 hids hstart hnodup hends hnoin

/-- Witness for C10: two start-typed nodes with an edge into the second
one validate successfully, returning the first start id. -/
theorem c10_multiple_starts_witness :
    validateGraph
      [{ id := "s1", type := "start", label := "S1", description := "" },
       { id := "a", type := "form", label := "A", description := "" },
       { id := "s2", type := "start", label := "S2", description := "" }]
      (buildAdjacency
        [{ id := "e1", source := "s1", target := "a", sourceHandle := none },
         { id := "e2", source := "a", target := "s2", sourceHandle := none }]) =
      .ok "s1" :=
  c10_multiple_starts
    [{ id := "s1", type := "start", label := "S1", description := "" },
     { id := "a", type := "form", label := "A", description := "" },
     { id := "s2", type := "start", label := "S2", description := "" }]
    [{ id := "e1", source := "s1", target := "a", sourceHandle := none },
     { id := "e2", source := "a", target := "s2", sourceHandle := none }]
    { id := "s1", type := "start", label := "S1", description := "" }
    { id := "s2", type := "start", label := "S2", description := "" }
    (by decide) (by decide) (by decide) (by decide) (by decide) (by decide)
    (by decide) (by decide)

/-! ## Condition node (`node_condition.go`) -/

/-- Conversion `toFloat64`: accepts `float64`/`float32`, `int`, and a
`json.Number` that parses; everything else — strings, bools, nil
(including a missing key, whose lookup yields the nil interface) — is
rejected. -/
def toFloat64 : Option GoVal → Option ℚ
  | some (.float q) => some q
  | some (.int n) => some (n : ℚ)
  | some (.jsonNumber q) => some q
  | _ => none

/-- Two-valued string type assertion `v.(string)`: yields the string,
or the zero value `""` for any non-string (or missing) value. -/
def goStringAssert : Option GoVal → String
  | some (.str s) => s
  | _ => ""

/-- Rendering of `%.1f`: decimal form of the exact rational with one
fractional digit (round half away from zero).  The Go source formats
the nearest binary float64; no verified claim depends on this text. -/
def fmtF1 (q : ℚ) : String :=
  let n : ℤ := round (q * 10)
  (if n < 0 then "-" else "") ++ toString (n.natAbs / 10) ++ "." ++ toString (n.natAbs % 10)

/-- Translation of `evaluate`: the five-comparator switch with the
`unsupported operator` default. -/
def evaluate (value : ℚ) (op : String) (threshold : ℚ) : Except String Bool :=
  if op = "greater_than" then .ok (decide (value > threshold))
  else if op = "less_than" then .ok (decide (value < threshold))
  else if op = "equal_to" then .ok (decide (value = threshold))
  else if op = "greater_than_or_equal" then .ok (decide (value ≥ threshold))
  else if op = "less_than_or_equal" then .ok (decide (value ≤ threshold))
  else .error ("unsupported operator: " ++ op)

/-- Translation of `branchLabel`. -/
def branchLabel (met : Bool) : String := if met then "met" else "not met"

/-- Condition variable name, defaulting to `"temperature"`. -/
def conditionVarName (conditionVariable : String) : String :=
  if conditionVariable = "" then "temperature" else conditionVariable

/-- Operator read from the context via string assertion, defaulting to
`greater_than` when missing or empty. -/
def effectiveOperator (vars : VarMap) : String :=
  let raw := goStringAssert (vars "operator")
  if raw = "" then "greater_than" else raw

/-- Threshold read from the context via numeric coercion, defaulting to
`25` when missing or not numerically convertible. -/
def effectiveThreshold (vars : VarMap) : ℚ :=
  (toFloat64 (vars "threshold")).getD 25

/-- Output map assembled by `ConditionNode.Execute` on success. -/
def conditionOutput (varName operator : String) (conditionMet : Bool)
    (value threshold : ℚ) : List (String × GoVal) :=
  [("conditionMet", .boolean conditionMet),
   ("threshold", .float threshold),
   ("operator", .str operator),
   ("actualValue", .float value),
   ("message", .str (varName ++ " " ++ fmtF1 value ++ " is " ++ operator ++ " "
     ++ fmtF1 threshold ++ " - condition " ++ branchLabel conditionMet))]

/-- Translation of `ConditionNode.Execute`: resolve the variable name,
coerce its value (error when missing or invalid), read operator and
threshold with their defaults, evaluate, and assemble branch and
output. -/
def conditionExecute (conditionVariable : String) (vars : VarMap) :
    Except String ExecutionResult :=
  let varName := conditionVarName conditionVariable
  match toFloat64 (vars varName) with
  | none => .error ("missing or invalid variable: " ++ varName)
  | some value =>
    let operator := effectiveOperator vars
    let threshold := effectiveThreshold vars
    match evaluate value operator threshold with
    | .error e => .error e
    | .ok conditionMet =>
      .ok { status := "completed",
            output := conditionOutput varName operator conditionMet value threshold,
            branch := if conditionMet then "true" else "false" }

theorem evaluate_unsupported (value threshold : ℚ) (op : String)
    (h : op ∉ (["greater_than", "less_than", "equal_to", "greater_than_or_equal",
      "less_than_or_equal"] : List String)) :
    evaluate value op threshold = .error ("unsupported operator: " ++ op) := by
  simp only [List.mem_cons, List.not_mem_nil, or_false, not_or] at h
  obtain ⟨h1, h2, h3, h4, h5⟩ := h
  unfold evaluate
  rw [if_neg h1, if_neg h2, if_neg h3, if_neg h4, if_neg h5]

theorem conditionExecute_ok (conditionVariable : String) (vars : VarMap)
    (value : ℚ) (met : Bool)
    (hval : toFloat64 (vars (conditionVarName conditionVariable)) = some value)
    (heval : evaluate value (effectiveOperator vars) (effectiveThreshold vars) = .ok met) :
    conditionExecute conditionVariable vars =
      .ok { status := "completed",
            output := conditionOutput (conditionVarName conditionVariable)
              (effectiveOperator vars) met value (effectiveThreshold vars),
            branch := if met then "true" else "false" } := by
  unfold conditionExecute
  dsimp only
  rw [hval]
  dsimp only
  rw [heval]

/-- C6: `ConditionNode.Execute` compares the condition variable's
numeric value against the threshold using the operator read from the
context — one of the five comparators, `greater_than_or_equal` and
`less_than_or_equal` including the boundary — with the operator
defaulting to `greater_than` when missing or empty and the threshold
defaulting to 25 when missing or not numerically convertible; it
returns status `completed` with branch `"true"` exactly when the
comparison holds and `"false"` otherwise (`conditionMet` in the output
matching the branch), and any other operator is rejected with
`unsupported operator: <op>`. -/
theorem c6_condition_execute (conditionVariable : String) (vars : VarMap) (value : ℚ)
    (hval : toFloat64 (vars (conditionVarName conditionVariable)) = some value) :
    (∀ met : Bool,
      ((effectiveOperator vars = "greater_than"
          ∧ met = decide (value > effectiveThreshold vars))
        ∨ (effectiveOperator vars = "less_than"
          ∧ met = decide (value < effectiveThreshold vars))
        ∨ (effectiveOperator vars = "equal_to"
          ∧ met = decide (value = effectiveThreshold vars))
        ∨ (effectiveOperator vars = "greater_than_or_equal"
          ∧ met = decide (value ≥ effectiveThreshold vars))
        ∨ (effectiveOperator vars = "less_than_or_equal"
          ∧ met = decide (value ≤ effectiveThreshold vars))) →
      conditionExecute conditionVariable vars =
        .ok { status := "completed",
              output := conditionOutput (conditionVarName conditionVariable)
                (effectiveOperator vars) met value (effectiveThreshold vars),
              branch := if met then "true" else "false" })
    ∧ (effectiveOperator vars ∉ (["greater_than", "less_than", "equal_to",
        "greater_than_or_equal", "less_than_or_equal"] : List String) →
      conditionExecute conditionVariable vars =
        .error ("unsupported operator: " ++ effectiveOperator vars))
    ∧ (value = effectiveThreshold vars →
      effectiveOperator vars = "greater_than_or_equal"
        ∨ effectiveOperator vars = "less_than_or_equal" →
      conditionExecute conditionVariable vars =
        .ok { status := "completed",
              output := conditionOutput (conditionVarName conditionVariable)
                (effectiveOperator vars) true value (effectiveThreshold vars),
              branch := "true" })
    ∧ (vars "operator" = none ∨ vars "operator" = some (.str "") →
      effectiveOperator vars = "greater_than")
    ∧ (toFloat64 (vars "threshold") = none → effectiveThreshold vars = 25) := by
  refine ⟨?_, ?_, ?_, ?_, ?_⟩
  · intro met hop
    apply conditionExecute_ok conditionVariable vars value met hval
    rcases hop with ⟨hop, hmet⟩ | ⟨hop, hmet⟩ | ⟨hop, hmet⟩ | ⟨hop, hmet⟩ | ⟨hop, hmet⟩ <;>
      rw [hop, hmet] <;> simp [evaluate]
  · intro hop
    unfold conditionExecute
    dsimp only
    rw [hval]
    dsimp only
    rw [evaluate_unsupported value (effectiveThreshold vars) (effectiveOperator vars) hop]
  · intro hvt hop
    have heval : evaluate value (effectiveOperator vars) (effectiveThreshold vars)
        = .ok true := by
      rcases hop with hop | hop <;> rw [hop] <;> simp [evaluate, le_of_eq, hvt, hvt.symm.le, hvt.le]
    have h := conditionExecute_ok conditionVariable vars value true hval heval
    simpa using h
  · intro hop
    unfold effectiveOperator
    rcases hop with hop | hop <;> rw [hop] <;> rfl
  · intro ht
    unfold effectiveThreshold
    rw [ht]
    rfl

/-- Witness for C6: with `temperature = 30`, no operator and no
threshold in the context, the condition defaults to
`greater_than`/`25` and takes the `"true"` branch. -/
theorem c6_condition_execute_witness :
    conditionExecute ""
      (fun k => if k = "temperature" then some (.float 30) else none) =
      .ok { status := "completed",
            output := conditionOutput "temperature" "greater_than" true 30 25,
            branch := "true" } := by
  have h := (c6_condition_execute ""
    (fun k => if k = "temperature" then some (.float 30) else none) 30 rfl).1
    true (Or.inl ⟨rfl, by decide⟩)
  simpa using h

/-! ## Weather and Flood node validation (`part` WeatherNode, `node_flood.go`) -/

/-- City option entry of the weather/flood metadata. -/
structure CityOption where
  city : String
  lat : ℚ
  lon : ℚ
deriving DecidableEq, Repr, Inhabited

/-- Rendering of `%.2f` analogous to `fmtF1` (two fractional digits);
no verified claim depends on this text. -/
def fmtF2 (q : ℚ) : String :=
  let n : ℤ := round (q * 100)
  (if n < 0 then "-" else "") ++ toString (n.natAbs / 100) ++ "."
    ++ (if n.natAbs % 100 < 10 then "0" else "") ++ toString (n.natAbs % 100)

/-- Model of `strings.TrimSpace`: drop whitespace from both ends
(ASCII whitespace; the additional Unicode space classes Go trims are
irrelevant to the verified claims). -/
def goTrimSpace (s : String) : String :=
  ⟨((s.data.dropWhile Char.isWhitespace).reverse.dropWhile Char.isWhitespace).reverse⟩

/-- Per-option loop shared textually by `WeatherNode.Validate` and
`FloodNode.Validate` (`kind` is the node-kind word of the messages,
`i` the loop index): blank city, latitude range, longitude range. -/
def validateOptions (kind id : String) : Nat → List CityOption → Except String Unit
  | _, [] => .ok ()
  | i, opt :: rest =>
    if goTrimSpace opt.city = "" then
      .error (kind ++ " node " ++ goQuote id ++ ": option [" ++ toString i
        ++ "] has blank city")
    else if opt.lat < -90 ∨ opt.lat > 90 then
      .error (kind ++ " node " ++ goQuote id ++ ": option " ++ goQuote opt.city
        ++ " lat " ++ fmtF2 opt.lat ++ " out of range [-90, 90]")
    else if opt.lon < -180 ∨ opt.lon > 180 then
      .error (kind ++ " node " ++ goQuote id ++ ": option " ++ goQuote opt.city
        ++ " lon " ++ fmtF2 opt.lon ++ " out of range [-180, 180]")
    else validateOptions kind id (i + 1) rest

/-- Translation of `WeatherNode.Validate`: nil client, empty endpoint,
empty options, the per-option loop, then empty input variables. -/
def weatherValidate (id : String) (clientNil : Bool) (apiEndpoint : String)
    (inputVariables : List String) (options : List CityOption) : Except String Unit :=
  if clientNil then
    .error ("weather node " ++ goQuote id ++ ": weather client is nil")
  else if apiEndpoint = "" then
    .error ("weather node " ++ goQuote id ++ ": missing apiEndpoint")
  else if options = [] then
    .error ("weather node " ++ goQuote id ++ ": no city options configured")
  else
    match validateOptions "weather" id 0 options with
    | .error e => .error e
    | .ok _ =>
      if inputVariables = [] then
        .error ("weather node " ++ goQuote id ++ ": no input variables")
      else .ok ()

/-- Translation of `FloodNode.Validate` (identical shape, flood
wording). -/
def floodValidate (id : String) (clientNil : Bool) (apiEndpoint : String)
    (inputVariables : List String) (options : List CityOption) : Except String Unit :=
  if clientNil then
    .error ("flood node " ++ goQuote id ++ ": flood client is nil")
  else if apiEndpoint = "" then
    .error ("flood node " ++ goQuote id ++ ": missing apiEndpoint")
  else if options = [] then
    .error ("flood node " ++ goQuote id ++ ": no city options configured")
  else
    match validateOptions "flood" id 0 options with
    | .error e => .error e
    | .ok _ =>
      if inputVariables = [] then
        .error ("flood node " ++ goQuote id ++ ": no input variables")
      else .ok ()

theorem validateOptions_ok (kind id : String) :
    ∀ (i : Nat) (options : List CityOption),
      (∀ opt ∈ options, goTrimSpace opt.city ≠ "" ∧ -90 ≤ opt.lat ∧ opt.lat ≤ 90
        ∧ -180 ≤ opt.lon ∧ opt.lon ≤ 180) →
      validateOptions kind id i options = .ok () := by
  intro i options
  induction options generalizing i with
  | nil => intro _; rfl
  | cons opt rest ih =>
    intro h
    obtain ⟨hcity, hlat1, hlat2, hlon1, hlon2⟩ := h opt (List.mem_cons_self _ _)
    unfold validateOptions
    rw [if_neg hcity,
      if_neg (by push_neg; exact ⟨hlat1, hlat2⟩),
      if_neg (by push_neg; exact ⟨hlon1, hlon2⟩)]
    exact ih (i + 1) (fun o ho => h o (List.mem_cons_of_mem _ ho))

theorem validateOptions_err (kind id : String) :
    ∀ (i : Nat) (options : List CityOption),
      (∃ opt ∈ options, opt.lat < -90 ∨ opt.lat > 90 ∨ opt.lon < -180 ∨ opt.lon > 180) →
      ∃ msg, validateOptions kind id i options = .error msg := by
  intro i options
  induction options generalizing i with
  | nil => rintro ⟨opt, hmem, _⟩; cases hmem
  | cons opt rest ih =>
    rintro ⟨o, ho, hrange⟩
    unfold validateOptions
    by_cases hcity : goTrimSpace opt.city = ""
    · exact ⟨_, by rw [if_pos hcity]⟩
    · rw [if_neg hcity]
      by_cases hlat : opt.lat < -90 ∨ opt.lat > 90
      · exact ⟨_, by rw [if_pos hlat]⟩
      · rw [if_neg hlat]
        by_cases hlon : opt.lon < -180 ∨ opt.lon > 180
        · exact ⟨_, by rw [if_pos hlon]⟩
        · rw [if_neg hlon]
          apply ih
          rcases List.mem_cons.1 ho with rfl | ho
          · rcases hrange with h | h | h | h
            · exact absurd (Or.inl h) hlat
            · exact absurd (Or.inr h) hlat
            · exact absurd (Or.inl h) hlon
            · exact absurd (Or.inr h) hlon
          · exact ⟨o, ho, hrange⟩

/-- C9: `WeatherNode.Validate` and `FloodNode.Validate` accept every
configuration whose options all lie within lat ∈ [−90, 90] and
lon ∈ [−180, 180] — the boundary values ±90 and ±180 included — given
the other invariants (non-nil client, non-empty endpoint, at least one
option, non-blank cities, at least one input variable); and they reject
with an error every configuration containing an option whose lat or lon
lies strictly outside those ranges. -/
theorem c9_geo_bounds :
    (∀ (id apiEndpoint : String) (inputVariables : List String)
        (options : List CityOption),
      apiEndpoint ≠ "" → options ≠ [] → inputVariables ≠ [] →
      (∀ opt ∈ options, goTrimSpace opt.city ≠ "" ∧ -90 ≤ opt.lat ∧ opt.lat ≤ 90
        ∧ -180 ≤ opt.lon ∧ opt.lon ≤ 180) →
      weatherValidate id false apiEndpoint inputVariables options = .ok ()
      ∧ floodValidate id false apiEndpoint inputVariables options = .ok ())
    ∧ (∀ (id apiEndpoint : String) (clientNil : Bool)
        (inputVariables : List String) (options : List CityOption),
      (∃ opt ∈ options, opt.lat < -90 ∨ opt.lat > 90 ∨ opt.lon < -180 ∨ opt.lon > 180) →
      (∃ msg, weatherValidate id clientNil apiEndpoint inputVariables options = .error msg)
      ∧ (∃ msg, floodValidate id clientNil apiEndpoint inputVariables options
          = .error msg)) := by
  constructor
  · intro id apiEndpoint inputVariables options hep hopt hiv hall
    constructor
    · unfold weatherValidate
      rw [if_neg (by simp), if_neg hep, if_neg hopt,
        validateOptions_ok "weather" id 0 options hall]
      dsimp only
      rw [if_neg hiv]
    · unfold floodValidate
      rw [if_neg (by simp), if_neg hep, if_neg hopt,
        validateOptions_ok "flood" id 0 options hall]
      dsimp only
      rw [if_neg hiv]
  · intro id apiEndpoint clientNil inputVariables options hbad
    have hopt : options ≠ [] := by
      rintro rfl
      obtain ⟨o, ho, _⟩ := hbad
      cases ho
    constructor
    · cases clientNil with
      | true => exact ⟨_, by unfold weatherValidate; rw [if_pos rfl]⟩
      | false =>
        by_cases hep : apiEndpoint = ""
        · exact ⟨_, by unfold weatherValidate; rw [if_neg (by simp), if_pos hep]⟩
        · obtain ⟨msg, hmsg⟩ := validateOptions_err "weather" id 0 options hbad
          exact ⟨msg, by
            unfold weatherValidate
            rw [if_neg (by simp), if_neg hep, if_neg hopt, hmsg]⟩
    · cases clientNil with
      | true => exact ⟨_, by unfold floodValidate; rw [if_pos rfl]⟩
      | false =>
        by_cases hep : apiEndpoint = ""
        · exact ⟨_, by unfold floodValidate; rw [if_neg (by simp), if_pos hep]⟩
        · obtain ⟨msg, hmsg⟩ := validateOptions_err "flood" id 0 options hbad
          exact ⟨msg, by
            unfold floodValidate
            rw [if_neg (by simp), if_neg hep, if_neg hopt, hmsg]⟩

/-- Witness for C9: an option at the exact corner lat = 90,
lon = −180 is accepted by both validators. -/
theorem c9_geo_bounds_witness :
    weatherValidate "w" false "https://api.example" ["city"]
      [{ city := "Sydney", lat := 90, lon := -180 }] = .ok ()
    ∧ floodValidate "w" false "https://api.example" ["city"]
      [{ city := "Sydney", lat := 90, lon := -180 }] = .ok () :=
  c9_geo_bounds.1 "w" "https://api.example" ["city"]
    [{ city := "Sydney", lat := 90, lon := -180 }]
    (by decide) (by decide) (by decide)
    (by intro opt hopt
        rcases List.mem_singleton.1 hopt with rfl
        refine ⟨by decide, by norm_num, by norm_num, by norm_num, by norm_num⟩)

/-! ## Metadata passthrough (`node.go` `BaseFields.ToJSON`, constructors)

`BaseFields.ToJSON` returns the `Metadata` field verbatim, and the
hydration layer scans the stored bytes into it unchanged.  But every
non-sentinel constructor runs `json.Unmarshal(base.Metadata, n)` on a
struct that EMBEDS `BaseFields`: Go's `encoding/json` promotes the
embedded exported, untagged fields to the top level and matches object
keys case-insensitively, so an input object key matching `"Metadata"`
decodes into the promoted `Metadata json.RawMessage` field itself,
replacing the stored raw bytes with the bytes of that sub-value.  The
model below reflects this documented decoding rule; rendering is
canonical (no whitespace), matching the bytes used in the evaluation
theorem. -/

inductive Json where
  | null
  | boolean (b : Bool)
  | num (n : ℤ)
  | str (s : String)
  | arr (xs : List Json)
  | obj (members : List (String × Json))
deriving Repr, Inhabited

mutual

/-- Canonical byte rendering of a JSON value (string escaping elided;
the inputs used below contain no characters Go would escape). -/
def Json.render : Json → String
  | .null => "null"
  | .boolean b => if b then "true" else "false"
  | .num n => toString n
  | .str s => "\"" ++ s ++ "\""
  | .arr xs => "[" ++ Json.renderList xs ++ "]"
  | .obj ms => "\x7b" ++ Json.renderMembers ms ++ "\x7d"

def Json.renderList : List Json → String
  | [] => ""
  | [x] => Json.render x
  | x :: xs => Json.render x ++ "," ++ Json.renderList xs

def Json.renderMembers : List (String × Json) → String
  | [] => ""
  | [kv] => "\"" ++ kv.1 ++ "\":" ++ Json.render kv.2
  | kv :: ms => "\"" ++ kv.1 ++ "\":" ++ Json.render kv.2 ++ "," ++ Json.renderMembers ms

end

/-- ASCII lowercasing used for field-name matching (every promoted
field name here is ASCII). -/
def lowerString (s : String) : String := ⟨s.data.map Char.toLower⟩

/-- Last object member whose key matches `field` case-insensitively:
sequential decoding writes each matching member into the field, so the
last one wins. -/
def lookupLastCI (members : List (String × Json)) (field : String) : Option Json :=
  (members.reverse.find? (fun kv => lowerString kv.1 == lowerString field)).map Prod.snd

/-- Value held by the `Metadata json.RawMessage` field after
`json.Unmarshal(base.Metadata, n)` returns for a node struct embedding
`BaseFields` (form, condition, weather, flood, email, sms): a JSON
object decodes successfully, and a member key matching `"Metadata"`
case-insensitively overwrites the field with that member's value bytes,
while without such a member the field keeps the original bytes; JSON
`null` is a successful no-op; any other JSON value cannot decode into a
struct and the constructor fails with `invalid <kind> metadata`.
`ToJSON` then returns exactly this field. -/
def metadataAfterConstruct (kind : String) (raw : Json) : Except String String :=
  match raw with
  | .obj members =>
    match lookupLastCI members "metadata" with
    | some v => .ok (Json.render v)
    | none => .ok (Json.render raw)
  | .null => .ok (Json.render raw)
  | _ => .error ("invalid " ++ kind ++ " metadata")

/-- Sentinel nodes (`start`, `end`) run no unmarshal: the bytes are
always preserved. -/
def sentinelMetadataAfterConstruct (raw : Json) : Except String String :=
  .ok (Json.render raw)

/-- C7 (failing-input evaluation): constructing a condition node from
the metadata bytes `\x7b"metadata":"x"\x7d` succeeds, but the metadata
bytes carried by `ToJSON` afterwards are `"x"` — not byte-identical to
the bytes used to construct the node, contradicting the lossless
passthrough the code's own comments promise.  A metadata object with no
key case-insensitively equal to `"metadata"` is required for the
passthrough to hold. -/
theorem c7_metadata_overwrite :
    metadataAfterConstruct "condition" (Json.obj [("metadata", Json.str "x")]) =
      .ok (Json.render (Json.str "x"))
    ∧ Json.render (Json.str "x") ≠ Json.render (Json.obj [("metadata", Json.str "x")])
    ∧ metadataAfterConstruct "condition"
        (Json.obj [("conditionVariable", Json.str "temperature")]) =
        .ok (Json.render (Json.obj [("conditionVariable", Json.str "temperature")]))
    ∧ (∀ raw : Json, sentinelMetadataAfterConstruct raw = .ok (Json.render raw)) :=
  ⟨rfl, by decide, rfl, fun _ => rfl⟩

end WorkflowEngine
